import Mathlib

/-
Verification of the WebSocket JSON-RPC transport in
src/api-client/jsonrpc-client/src/transports/ws.rs.

The embedding is a faithful shallow translation of the transport state and
of the functions named by the claims: prepare, send_request,
handle_incoming_msg, handle_subscription, handle_pending_response,
subscribe, unsubscribe.

Modelling conventions:
- The envelope grammar is owned by an external message-format library, so an
  inbound text frame is represented by the outcomes of the two decode
  attempts the code performs on it (serde_json::from_str::<TheStruct> for
  the push-message shape and for the Response shape).
- The two BTreeMap tables (pending calls, subscriptions) are association
  lists with replace-on-insert semantics; sinks (oneshot senders and
  unbounded channel senders) are identified by freshly allocated numbers,
  and a delivery log records every value sent into a sink.
- The AtomicUsize id counter is a Nat reduced modulo 2 ^ 64 on increment,
  matching the wrapping fetch_add of usize.
- Paths where the code calls expect or unwrap on a failure are modelled by
  an explicit panicked outcome.
-/

namespace Plum

/-- Word size bound for usize arithmetic (64-bit target). -/
def USIZE : Nat := 2 ^ 64

/-- A JSON number as the code observes it through serde_json
Number::as_u64: either representable as a u64 or not (negative or
fractional). -/
inductive JNum where
  | uint : Nat → JNum
  | nonU64 : JNum
deriving DecidableEq

/-- Number::as_u64 of serde_json. -/
def JNum.asU64 : JNum → Option Nat
  | .uint n => some n
  | .nonU64 => none

/-- A JSON value as far as the transport inspects it. -/
inductive Value where
  | num : JNum → Value
  | str : String → Value
  | null : Value
deriving DecidableEq

/-- The Params field of an envelope: a JSON array or some non-array shape. -/
inductive Params where
  | array : List Value → Params
  | nonArray : Params
deriving DecidableEq

/-- The decoded push-message shape (method plus params, no call id): the
target of the first decode attempt in handle_subscription. -/
structure Notif where
  method : String
  params : Params
deriving DecidableEq

/-- One output inside a Response; output.id() yields the originating
RequestId. -/
structure Output where
  id : Nat
  body : Value
deriving DecidableEq

/-- The decoded Response shape: Single or Batch, as matched by
handle_pending_response. -/
inductive Response where
  | single : Output → Response
  | batch : List Output → Response
deriving DecidableEq

/-- The MethodCall record built by prepare. -/
structure MethodCall where
  id : Nat
  method : String
  params : Params
deriving DecidableEq

/-- The Call envelope (the transport only ever builds MethodCall). -/
inductive Call where
  | methodCall : MethodCall → Call
deriving DecidableEq

/-- An inbound text frame, represented by the outcomes of the two
independent decode attempts the code runs on it: the push-message decode
used by handle_subscription and the Response decode used by
handle_pending_response (a failed decode is none). -/
structure TextFrame where
  note : Option Notif
  resp : Option Response
deriving DecidableEq

/-- Inbound WebSocket messages, as matched by handle_incoming_msg. -/
inductive InMsg where
  | text : TextFrame → InMsg
  | binary : List Nat → InMsg
  | close : Option String → InMsg
  | ping : List Nat → InMsg
  | pong : List Nat → InMsg
deriving DecidableEq

/-- Messages the code enqueues on the outbound writer channel: serialized
requests from send_request, and the Close echo and Pong replies from
handle_incoming_msg. -/
inductive OutMsg where
  | text : Call → OutMsg
  | close : Option String → OutMsg
  | pong : List Nat → OutMsg
deriving DecidableEq

/-- Lookup in an association-list map, mirroring BTreeMap::get. -/
def lookupA : List (Nat × Nat) → Nat → Option Nat
  | [], _ => none
  | p :: m, k => if p.1 = k then some p.2 else lookupA m k

/-- Removal of a key, mirroring BTreeMap::remove on the entry list. -/
def eraseA : List (Nat × Nat) → Nat → List (Nat × Nat)
  | [], _ => []
  | p :: m, k => if p.1 = k then eraseA m k else p :: eraseA m k

/-- Insertion with replacement, mirroring BTreeMap::insert; the previous
value for the key, if any, is no longer referenced by the map. -/
def insertA (m : List (Nat × Nat)) (k v : Nat) : List (Nat × Nat) :=
  (k, v) :: eraseA m k

/-- The transport state: the id counter, the two sink tables, delivery
logs for the two sink kinds, the set of oneshot senders dropped without
firing, the outbound channel contents, and whether the outbound receiver
has been dropped (driver terminated). -/
structure WsState where
  counter : Nat
  pendings : List (Nat × Nat)
  nextPSink : Nat
  plog : List (Nat × Option Response)
  droppedP : List Nat
  subs : List (Nat × Nat)
  nextSSink : Nat
  slog : List (Nat × Value)
  outbound : List OutMsg
  senderClosed : Bool
deriving DecidableEq

/-- The state right after WebSocketTransport::new: counter at 1, empty
tables, open outbound channel. -/
def initState : WsState :=
  { counter := 1
    pendings := []
    nextPSink := 0
    plog := []
    droppedP := []
    subs := []
    nextSSink := 0
    slog := []
    outbound := []
    senderClosed := false }

/-- The id extracted from a Response decode outcome by
handle_pending_response: the id of a Single output, the id of the first
output of a Batch with 0 as default for an empty batch, and 0 for a failed
decode. -/
def respId : Option Response → Nat
  | some (.single o) => o.id
  | some (.batch []) => 0
  | some (.batch (o :: _)) => o.id
  | none => 0

/-- A frame that decodes as a Response and not as a push message. -/
def respFrame (r : Response) : TextFrame :=
  { note := none, resp := some r }

/-- A well-formed push-message frame for subscription sub, carrying value
v: the decode yields params [sub, v, ...]. -/
def noteFrame (mth : String) (sub : Nat) (v : Value) (rest : List Value) : TextFrame :=
  { note := some { method := mth, params := Params.array (Value.num (JNum.uint sub) :: v :: rest) }
    resp := none }

/-- Transport::prepare: fetch_add(1) on the shared counter (returning the
previous value, with usize wrap) and construction of the Call envelope;
nothing else of the state is touched. -/
def prepare (st : WsState) (method : String) (params : Params) :
    (Nat × Call) × WsState :=
  ((st.counter, Call.methodCall { id := st.counter, method := method, params := params }),
   { st with counter := (st.counter + 1) % USIZE })

/-- A sequence of prepare calls, returning the (id, envelope) pairs in
order together with the final state. -/
def prepareRun (st : WsState) : List (String × Params) → List (Nat × Call) × WsState
  | [] => ([], st)
  | c :: cs =>
    ((prepare st c.1 c.2).1 :: (prepareRun (prepare st c.1 c.2).2 cs).1,
     (prepareRun (prepare st c.1 c.2).2 cs).2)

/-- The list c, c+1, ..., c+n-1. -/
def idsFrom (c : Nat) : Nat → List Nat
  | 0 => []
  | n + 1 => c :: idsFrom (c + 1) n

/-- Outcome of send_request up to the await point: either the registration
and enqueue succeeded and the caller now awaits the sink, or the expect on
unbounded_send panicked (the state at the panic is carried). -/
inductive SendStep where
  | panicked : WsState → SendStep
  | enqueued : Nat → WsState → SendStep
deriving DecidableEq

/-- The state carried by a SendStep. -/
def stateOfSend : SendStep → WsState
  | .panicked st => st
  | .enqueued _ st => st

/-- Whether a SendStep is a panic. -/
def isPanicked : SendStep → Bool
  | .panicked _ => true
  | .enqueued _ _ => false

/-- The registration step of send_request: a fresh oneshot sender is
inserted into pendings under id; an entry replaced by the BTreeMap insert
has its sender dropped unfired. -/
def pendInsertState (st : WsState) (id : Nat) : WsState :=
  { st with
      pendings := insertA st.pendings id st.nextPSink
      nextPSink := st.nextPSink + 1
      droppedP :=
        match lookupA st.pendings id with
        | some old => old :: st.droppedP
        | none => st.droppedP }

/-- WebSocketTransport::send_request: create a fresh oneshot channel,
insert its sender into pendings under id (a replaced sender is dropped
unfired), then unbounded_send the serialized request to the writer
channel; the expect on that send panics when the writer receiver is gone.
On success the caller awaits the fresh sink. -/
def send_request (st : WsState) (id : Nat) (req : Call) : SendStep :=
  if st.senderClosed then
    SendStep.panicked (pendInsertState st id)
  else
    SendStep.enqueued st.nextPSink
      { pendInsertState st id with outbound := st.outbound ++ [OutMsg.text req] }

/-- Result of one dispatch step: the handler returned normally, or a
panic unwound out of it (killing the inbound loop). -/
inductive StepResult where
  | ok : WsState → StepResult
  | panicked : WsState → StepResult
deriving DecidableEq

/-- The state carried by a StepResult. -/
def stateOfStep : StepResult → WsState
  | .ok st => st
  | .panicked st => st

/-- The function handle_subscription: decode the frame as a push message;
on success require params to be an array whose element 0 is a Number and
whose element 1 exists; as_u64().unwrap() on that Number panics when it is
not a u64; otherwise look up the subscription sink and append the value,
or drop the value with a warning when the id is unknown. All other decode
shapes are logged and dropped. The send into the consumer channel is
modelled as always succeeding: consumer receivers are never dropped in
the model, so the expect on that send is not reached. -/
def handle_subscription (st : WsState) (f : TextFrame) : StepResult :=
  match f.note with
  | none => StepResult.ok st
  | some n =>
    match n.params with
    | Params.nonArray => StepResult.ok st
    | Params.array ps =>
      match ps.get? 0, ps.get? 1 with
      | some (Value.num j), some result =>
        match j.asU64 with
        | none => StepResult.panicked st
        | some sub =>
          match lookupA st.subs sub with
          | some s => StepResult.ok { st with slog := st.slog ++ [(s, result)] }
          | none => StepResult.ok st
      | _, _ => StepResult.ok st

/-- The function handle_pending_response: decode the frame as a Response,
extract the correlation id (0 on decode failure or empty batch), remove
the matching pending entry if any and send the decode outcome into it; a
missing entry only logs. -/
def handle_pending_response (st : WsState) (f : TextFrame) : WsState :=
  match lookupA st.pendings (respId f.resp) with
  | some s =>
    { st with
        pendings := eraseA st.pendings (respId f.resp)
        plog := st.plog ++ [(s, f.resp)] }
  | none => st

/-- The function handle_incoming_msg: text frames go through
handle_subscription then handle_pending_response (a panic in the former
aborts the step), Binary and Pong only log, Close is echoed and Ping is
answered with a Pong on the writer channel (the expect there panics when
the writer receiver is gone). -/
def handle_incoming_msg (st : WsState) (msg : InMsg) : StepResult :=
  match msg with
  | InMsg.text f =>
    match handle_subscription st f with
    | StepResult.panicked st1 => StepResult.panicked st1
    | StepResult.ok st1 => StepResult.ok (handle_pending_response st1 f)
  | InMsg.binary _ => StepResult.ok st
  | InMsg.close m =>
    if st.senderClosed then StepResult.panicked st
    else StepResult.ok { st with outbound := st.outbound ++ [OutMsg.close m] }
  | InMsg.ping p =>
    if st.senderClosed then StepResult.panicked st
    else StepResult.ok { st with outbound := st.outbound ++ [OutMsg.pong p] }
  | InMsg.pong _ => StepResult.ok st

/-- PubsubTransport::subscribe: create a fresh unbounded channel and
insert its sender under id (a replaced sender is dropped and is warned
about); the fresh sink number identifies the consumer stream handed
back. -/
def subscribe (st : WsState) (id : Nat) : Nat × WsState :=
  (st.nextSSink,
   { st with
       subs := insertA st.subs id st.nextSSink
       nextSSink := st.nextSSink + 1 })

/-- PubsubTransport::unsubscribe: remove the sink for id. -/
def unsubscribe (st : WsState) (id : Nat) : WsState :=
  { st with subs := eraseA st.subs id }

/-- Termination of the ws_task driver: the writer receiver is dropped so
the outbound channel is closed; the Arc clones held by the task go away
but the tables themselves survive in the transport, so no pending sender
is dropped and no table entry changes. -/
def driverTerminated (st : WsState) : WsState :=
  { st with senderClosed := true }

/-- Processing of a list of response frames by the inbound dispatch, one
handle_pending_response per frame. -/
def runResponses (st : WsState) : List Response → WsState
  | [] => st
  | r :: rs => runResponses (handle_pending_response st (respFrame r)) rs

/-- The inbound loop over a list of messages; a panic ends the loop at
that message. -/
def runIncoming (st : WsState) : List InMsg → StepResult
  | [] => StepResult.ok st
  | m :: ms =>
    match handle_incoming_msg st m with
    | StepResult.panicked st1 => StepResult.panicked st1
    | StepResult.ok st1 => runIncoming st1 ms

/-- What rx.await.unwrap() in send_request observes for sink s: the value
sent into the sink if one was sent; otherwise a panic if the sender was
dropped unfired (the await yields a cancellation error and unwrap panics),
and otherwise the await never completes. -/
inductive AwaitOutcome where
  | value : Option Response → AwaitOutcome
  | hung : AwaitOutcome
  | panicked : AwaitOutcome
deriving DecidableEq

/-- Evaluation of rx.await.unwrap() for pending sink s against a state:
the first (and for a oneshot sink only) value sent into s if any. -/
def await_unwrap (st : WsState) (s : Nat) : AwaitOutcome :=
  match st.plog.filter (fun d => d.1 == s) with
  | d :: _ => AwaitOutcome.value d.2
  | [] => if s ∈ st.droppedP then AwaitOutcome.panicked else AwaitOutcome.hung

/-- The deliveries a given sink received, in order. -/
def deliveredTo {α : Type} (s : Nat) (log : List (Nat × α)) : List (Nat × α) :=
  log.filter (fun d => d.1 == s)

/-- Well-formedness of the subscription table: every registered sink was
allocated before the next fresh one, and no sink is registered twice. -/
@[reducible] def subsWF (st : WsState) : Prop :=
  (∀ p ∈ st.subs, p.2 < st.nextSSink) ∧ (st.subs.map Prod.snd).Nodup

/-- Well-formedness of the pending table: every registered sink was
allocated before the next fresh one, and no sink is registered twice. -/
@[reducible] def pendWF (st : WsState) : Prop :=
  (∀ p ∈ st.pendings, p.2 < st.nextPSink) ∧ (st.pendings.map Prod.snd).Nodup

/-- A push-message frame whose params carry a Number that is not a u64:
the shape called out by the decode-failure claim. -/
def badFrame : TextFrame :=
  { note := some { method := "xrpc_subscription", params := Params.array [Value.num JNum.nonU64, Value.null] }
    resp := none }

/-- A sample request envelope for concrete instantiations. -/
def callX : Call :=
  Call.methodCall { id := 7, method := "Filecoin.Version", params := Params.array [] }

/-- A concrete pending table for instantiations: ids 1 and 2 awaited by
sinks 0 and 1. -/
def psW : List (Nat × Nat) := [(1, 0), (2, 1)]

/-- A concrete response for call id 1. -/
def r1W : Response := Response.single { id := 1, body := Value.str "pong" }

/-- A concrete response for call id 2. -/
def r2W : Response := Response.single { id := 2, body := Value.null }

/-- A concrete state with call id 1 pending on sink 0. -/
def stW5 : WsState := { initState with pendings := [(1, 0)], nextPSink := 1 }

/-- A concrete list of two calls to prepare. -/
def csW : List (String × Params) :=
  [("Filecoin.Version", Params.array []), ("Filecoin.LogList", Params.array [])]

/-- A text frame that decodes as nothing recognizable. -/
def junkFrame : TextFrame := { note := none, resp := none }

/-- The state after one subscribe of id 5 on a fresh transport. -/
def st1W6 : WsState := (subscribe initState 5).2

/-- The state after a second subscribe of id 5, replacing the first. -/
def st2W6 : WsState := (subscribe st1W6 5).2

/-- The state after one subscribe of id 3 on a fresh transport. -/
def stW7 : WsState := (subscribe initState 3).2

/-- The state after a first send_request of id 7 (sink 0 registered). -/
def stC9a : WsState := stateOfSend (send_request initState 7 callX)

/-- The state after a second send_request of the same id 7 (sink 1
replaces sink 0, whose sender is dropped unfired). -/
def stC9b : WsState := stateOfSend (send_request stC9a 7 callX)

/-- A concrete response for call id 7. -/
def r7W : Response := Response.single { id := 7, body := Value.null }

theorem lookupA_eq_none_iff (m : List (Nat × Nat)) (k : Nat) :
    lookupA m k = none ↔ k ∉ m.map Prod.fst := by
  induction m with
  | nil => simp [lookupA]
  | cons p m ih =>
    by_cases h : p.1 = k
    · simp [lookupA, h]
    · rw [lookupA, if_neg h, ih]
      simp only [List.map_cons, List.mem_cons, not_or]
      constructor
      · intro hk
        exact ⟨fun he => h he.symm, hk⟩
      · intro hk
        exact hk.2

theorem lookupA_mem {m : List (Nat × Nat)} {k v : Nat}
    (h : lookupA m k = some v) : (k, v) ∈ m := by
  induction m with
  | nil => simp [lookupA] at h
  | cons p m ih =>
    by_cases hp : p.1 = k
    · rw [lookupA, if_pos hp] at h
      cases h
      exact List.mem_cons.mpr (Or.inl (by cases p; cases hp; rfl))
    · rw [lookupA, if_neg hp] at h
      exact List.mem_cons_of_mem _ (ih h)

theorem mem_lookupA {m : List (Nat × Nat)} {k v : Nat}
    (hn : (m.map Prod.fst).Nodup) (h : (k, v) ∈ m) : lookupA m k = some v := by
  induction m with
  | nil => cases h
  | cons p m ih =>
    simp only [List.map_cons, List.nodup_cons] at hn
    rcases List.mem_cons.mp h with h1 | h2
    · rw [← h1, lookupA, if_pos rfl]
    · have hp : p.1 ≠ k := by
        intro hpk
        exact hn.1 (hpk ▸ (List.mem_map_of_mem Prod.fst h2))
      rw [lookupA, if_neg hp]
      exact ih hn.2 h2

theorem eraseA_sublist (m : List (Nat × Nat)) (k : Nat) :
    (eraseA m k).Sublist m := by
  induction m with
  | nil => simp [eraseA]
  | cons p m ih =>
    by_cases h : p.1 = k
    · rw [eraseA, if_pos h]
      exact ih.cons p
    · rw [eraseA, if_neg h]
      exact ih.cons₂ p

theorem mem_eraseA {m : List (Nat × Nat)} {k a b : Nat} :
    (a, b) ∈ eraseA m k ↔ (a, b) ∈ m ∧ a ≠ k := by
  induction m with
  | nil => simp [eraseA]
  | cons p m ih =>
    by_cases h : p.1 = k
    · rw [eraseA, if_pos h]
      constructor
      · intro hm
        exact ⟨List.mem_cons_of_mem _ (ih.mp hm).1, (ih.mp hm).2⟩
      · rintro ⟨hm, hne⟩
        rcases List.mem_cons.mp hm with h1 | h2
        · exact absurd (by rw [← h1] at h; exact h) hne
        · exact ih.mpr ⟨h2, hne⟩
    · rw [eraseA, if_neg h]
      constructor
      · intro hm
        rcases List.mem_cons.mp hm with h1 | h2
        · refine ⟨List.mem_cons.mpr (Or.inl h1), ?_⟩
          intro hak
          apply h
          rw [← h1]
          exact hak
        · exact ⟨List.mem_cons_of_mem _ (ih.mp h2).1, (ih.mp h2).2⟩
      · rintro ⟨hm, hne⟩
        rcases List.mem_cons.mp hm with h1 | h2
        · exact List.mem_cons.mpr (Or.inl h1)
        · exact List.mem_cons_of_mem _ (ih.mpr ⟨h2, hne⟩)

theorem lookupA_eraseA_self (m : List (Nat × Nat)) (k : Nat) :
    lookupA (eraseA m k) k = none := by
  rw [lookupA_eq_none_iff]
  intro hk
  rcases List.mem_map.mp hk with ⟨p, hp, hfst⟩
  have := (mem_eraseA (m := m) (k := k) (a := p.1) (b := p.2)).mp (by
    have : p = (p.1, p.2) := rfl
    rw [← this]
    exact hp)
  exact this.2 hfst

theorem eraseA_of_not_mem {m : List (Nat × Nat)} {k : Nat}
    (h : k ∉ m.map Prod.fst) : eraseA m k = m := by
  induction m with
  | nil => rfl
  | cons p m ih =>
    simp only [List.map_cons, List.mem_cons, not_or] at h
    rw [eraseA, if_neg (fun hh => h.1 hh.symm), ih h.2]

theorem keys_eraseA_perm {m : List (Nat × Nat)} {k : Nat}
    (hn : (m.map Prod.fst).Nodup) (hk : k ∈ m.map Prod.fst) :
    List.Perm (m.map Prod.fst) (k :: (eraseA m k).map Prod.fst) := by
  induction m with
  | nil => cases hk
  | cons p m ih =>
    simp only [List.map_cons, List.nodup_cons] at hn
    by_cases h : p.1 = k
    · subst h
      rw [eraseA, if_pos rfl, eraseA_of_not_mem hn.1]
      simp only [List.map_cons]
      exact List.Perm.refl _
    · have hk2 : k ∈ m.map Prod.fst := by
        rcases List.mem_cons.mp hk with h1 | h2
        · exact absurd h1.symm h
        · exact h2
      have hperm := ih hn.2 hk2
      rw [eraseA, if_neg h]
      simp only [List.map_cons]
      exact List.Perm.trans (List.Perm.cons p.1 hperm) (List.Perm.swap k p.1 _)

theorem snd_inj {m : List (Nat × Nat)} (hn : (m.map Prod.snd).Nodup)
    {a c s : Nat} (ha : (a, s) ∈ m) (hc : (c, s) ∈ m) : a = c := by
  induction m with
  | nil => cases ha
  | cons p m ih =>
    simp only [List.map_cons, List.nodup_cons] at hn
    rcases List.mem_cons.mp ha with ha1 | ha2 <;> rcases List.mem_cons.mp hc with hc1 | hc2
    · rw [← hc1] at ha1
      exact congrArg Prod.fst ha1
    · refine absurd ?_ hn.1
      rw [← ha1]
      show s ∈ List.map Prod.snd m
      exact List.mem_map_of_mem Prod.snd hc2
    · refine absurd ?_ hn.1
      rw [← hc1]
      show s ∈ List.map Prod.snd m
      exact List.mem_map_of_mem Prod.snd ha2
    · exact ih hn.2 ha2 hc2

theorem fst_inj {m : List (Nat × Nat)} (hn : (m.map Prod.fst).Nodup)
    {k a b : Nat} (ha : (k, a) ∈ m) (hb : (k, b) ∈ m) : a = b := by
  have h1 := mem_lookupA hn ha
  have h2 := mem_lookupA hn hb
  rw [h1] at h2
  cases h2
  rfl

theorem lookupA_insertA_self (m : List (Nat × Nat)) (k v : Nat) :
    lookupA (insertA m k v) k = some v := by
  rw [insertA, lookupA, if_pos rfl]

theorem sinks_eraseA_subset {m : List (Nat × Nat)} {k s : Nat}
    (h : s ∈ (eraseA m k).map Prod.snd) : s ∈ m.map Prod.snd :=
  ((eraseA_sublist m k).map Prod.snd).subset h

theorem nodup_map_eraseA {m : List (Nat × Nat)} {k : Nat} (f : Nat × Nat → Nat)
    (hn : (m.map f).Nodup) : ((eraseA m k).map f).Nodup :=
  ((eraseA_sublist m k).map f).nodup hn

theorem deliveredTo_append {α : Type} (s : Nat) (l1 l2 : List (Nat × α)) :
    deliveredTo s (l1 ++ l2) = deliveredTo s l1 ++ deliveredTo s l2 := by
  simp [deliveredTo, List.filter_append]

theorem deliveredTo_single_ne {α : Type} {s s2 : Nat} (v : α) (h : s2 ≠ s) :
    deliveredTo s [(s2, v)] = [] := by
  simp [deliveredTo, h]

theorem deliveredTo_single_eq {α : Type} (s : Nat) (v : α) :
    deliveredTo s [(s, v)] = [(s, v)] := by
  simp [deliveredTo]

theorem hpr_found {st : WsState} {f : TextFrame} {s : Nat}
    (h : lookupA st.pendings (respId f.resp) = some s) :
    handle_pending_response st f =
      { st with
          pendings := eraseA st.pendings (respId f.resp)
          plog := st.plog ++ [(s, f.resp)] } := by
  unfold handle_pending_response
  rw [h]

theorem hpr_missing {st : WsState} {f : TextFrame}
    (h : lookupA st.pendings (respId f.resp) = none) :
    handle_pending_response st f = st := by
  unfold handle_pending_response
  rw [h]

theorem hpr_droppedP (st : WsState) (f : TextFrame) :
    (handle_pending_response st f).droppedP = st.droppedP := by
  cases hl : lookupA st.pendings (respId f.resp) with
  | none => rw [hpr_missing hl]
  | some s => rw [hpr_found hl]

theorem runResponses_droppedP (rs : List Response) :
    ∀ st : WsState, (runResponses st rs).droppedP = st.droppedP := by
  induction rs with
  | nil => intro st; rfl
  | cons r rs ih =>
    intro st
    rw [runResponses, ih, hpr_droppedP]

theorem runResponses_frozen (rs : List Response) :
    ∀ (st : WsState) (s : Nat), s ∉ st.pendings.map Prod.snd →
      deliveredTo s (runResponses st rs).plog = deliveredTo s st.plog := by
  induction rs with
  | nil =>
    intro st s _
    rfl
  | cons r rs ih =>
    intro st s h
    rw [runResponses]
    cases hl : lookupA st.pendings (respId (respFrame r).resp) with
    | none =>
      rw [hpr_missing hl]
      exact ih st s h
    | some s2 =>
      rw [hpr_found hl]
      have hs2 : s2 ∈ st.pendings.map Prod.snd :=
        List.mem_map_of_mem Prod.snd (lookupA_mem hl)
      have hne : s2 ≠ s := fun he => h (he ▸ hs2)
      rw [ih _ s (fun hmem => h (sinks_eraseA_subset hmem))]
      show deliveredTo s (st.plog ++ [(s2, (respFrame r).resp)]) = deliveredTo s st.plog
      rw [deliveredTo_append, deliveredTo_single_ne _ hne, List.append_nil]

theorem runResponses_exact (rs : List Response) :
    ∀ (st : WsState), (st.pendings.map Prod.fst).Nodup →
      (st.pendings.map Prod.snd).Nodup →
      List.Perm (rs.map (fun r => respId (some r))) (st.pendings.map Prod.fst) →
      ∀ (i s : Nat), (i, s) ∈ st.pendings →
      ∀ (r : Response), r ∈ rs → respId (some r) = i →
      deliveredTo s (runResponses st rs).plog = deliveredTo s st.plog ++ [(s, some r)] := by
  induction rs with
  | nil =>
    intro st _ _ _ i s _ r hr _
    cases hr
  | cons r0 rs ih =>
    intro st hkeys hsinks hperm i s hmem r hr hid
    have hi0 : respId (some r0) ∈ st.pendings.map Prod.fst :=
      hperm.subset (List.mem_map_of_mem _ (List.mem_cons_self r0 rs))
    rcases List.mem_map.mp hi0 with ⟨p, hp, hpk⟩
    have hpmem : (respId (some r0), p.2) ∈ st.pendings := by
      rw [← hpk]
      exact hp
    have hlk : lookupA st.pendings (respId (respFrame r0).resp) = some p.2 :=
      mem_lookupA hkeys hpmem
    rw [runResponses, hpr_found hlk]
    have hkeys1 : ((eraseA st.pendings (respId (respFrame r0).resp)).map Prod.fst).Nodup :=
      nodup_map_eraseA Prod.fst hkeys
    have hsinks1 : ((eraseA st.pendings (respId (respFrame r0).resp)).map Prod.snd).Nodup :=
      nodup_map_eraseA Prod.snd hsinks
    have hperm1 : List.Perm (rs.map (fun r => respId (some r)))
        ((eraseA st.pendings (respId (some r0))).map Prod.fst) :=
      (hperm.trans (keys_eraseA_perm hkeys hi0)).cons_inv
    by_cases hik : i = respId (some r0)
    · have hs : s = p.2 := fst_inj hkeys (hik ▸ hmem) hpmem
      have hrr : r = r0 := by
        rcases List.mem_cons.mp hr with h1 | h2
        · exact h1
        · exfalso
          have hk1 : respId (some r0) ∈ (eraseA st.pendings (respId (some r0))).map Prod.fst := by
            apply hperm1.subset
            rw [← hid, ← hik] at *
            exact List.mem_map_of_mem _ h2
          have hk2 := lookupA_eraseA_self st.pendings (respId (some r0))
          rw [lookupA_eq_none_iff] at hk2
          exact hk2 hk1
      have hfroz : s ∉ (eraseA st.pendings (respId (respFrame r0).resp)).map Prod.snd := by
        intro hsmem
        rcases List.mem_map.mp hsmem with ⟨q, hq, hqs⟩
        have hq2 : (q.1, q.2) ∈ eraseA st.pendings (respId (some r0)) := hq
        have hq3 := mem_eraseA.mp hq2
        have : q.1 = respId (some r0) :=
          snd_inj hsinks (hqs ▸ hq3.1) (hik ▸ hmem : (respId (some r0), s) ∈ st.pendings)
        exact hq3.2 this
      rw [runResponses_frozen rs _ s hfroz]
      show deliveredTo s (st.plog ++ [(p.2, (respFrame r0).resp)]) = _
      rw [deliveredTo_append, ← hs, hrr, deliveredTo_single_eq]
      rfl
    · have hsp : s ≠ p.2 := by
        intro he
        exact hik (snd_inj hsinks hmem (he ▸ hpmem))
      have hmem1 : (i, s) ∈ eraseA st.pendings (respId (some r0)) :=
        mem_eraseA.mpr ⟨hmem, hik⟩
      have hr1 : r ∈ rs := by
        rcases List.mem_cons.mp hr with h1 | h2
        · exact absurd (h1 ▸ hid).symm hik
        · exact h2
      rw [ih _ hkeys1 hsinks1 hperm1 i s hmem1 r hr1 hid]
      show deliveredTo s (st.plog ++ [(p.2, (respFrame r0).resp)]) ++ _ = _
      rw [deliveredTo_append, deliveredTo_single_ne _ (Ne.symm hsp), List.append_nil]

/-- Claim C1: when the pending table holds N registrations with distinct
call ids and distinct sinks and the N responses arrive in an arbitrary
permutation of those ids, every awaiting caller receives exactly the
response whose id matches its registration: the sink registered for id i
is completed with precisely the response whose id is i and with nothing
else, and its await resolves with that response. -/
theorem C1_response_correlation (ps : List (Nat × Nat)) (rs : List Response)
    (hkeys : (ps.map Prod.fst).Nodup) (hsinks : (ps.map Prod.snd).Nodup)
    (hperm : List.Perm (rs.map (fun r => respId (some r))) (ps.map Prod.fst))
    (i s : Nat) (hmem : (i, s) ∈ ps)
    (r : Response) (hr : r ∈ rs) (hid : respId (some r) = i) :
    deliveredTo s (runResponses { initState with pendings := ps } rs).plog = [(s, some r)] ∧
    await_unwrap (runResponses { initState with pendings := ps } rs) s
      = AwaitOutcome.value (some r) := by
  have hmain := runResponses_exact rs { initState with pendings := ps }
    hkeys hsinks hperm i s hmem r hr hid
  have hfil : deliveredTo s (runResponses { initState with pendings := ps } rs).plog
      = [(s, some r)] := by
    rw [hmain]
    rfl
  refine ⟨hfil, ?_⟩
  unfold await_unwrap
  have hfil2 : (runResponses { initState with pendings := ps } rs).plog.filter
      (fun d => d.1 == s) = [(s, some r)] := hfil
  rw [hfil2]

/-- Claim C1 witness: two pending calls with ids 1 and 2; the responses
arrive in the reversed order and the caller of id 1 still receives
exactly the id-1 response. -/
theorem C1_witness :
    deliveredTo 0 (runResponses { initState with pendings := psW } [r2W, r1W]).plog
      = [(0, some r1W)] ∧
    await_unwrap (runResponses { initState with pendings := psW } [r2W, r1W]) 0
      = AwaitOutcome.value (some r1W) :=
  C1_response_correlation psW [r2W, r1W] (by decide) (by decide) (by decide)
    1 0 (by decide) r1W (by decide) (by decide)

/-- Claim C5: resolving a call id with no registered entry leaves the
whole state unchanged, and resolving the same frame twice in sequence has
no effect the second time because the first resolution removed the
entry. -/
theorem C5_resolve_absent_idempotent (st : WsState) (f : TextFrame)
    (habs : lookupA st.pendings (respId f.resp) = none) :
    handle_pending_response st f = st ∧
    ∀ st2 : WsState,
      handle_pending_response (handle_pending_response st2 f) f
        = handle_pending_response st2 f := by
  refine ⟨hpr_missing habs, ?_⟩
  intro st2
  cases hl : lookupA st2.pendings (respId f.resp) with
  | none => rw [hpr_missing hl, hpr_missing hl]
  | some s =>
    rw [hpr_found hl]
    exact hpr_missing (lookupA_eraseA_self st2.pendings (respId f.resp))

/-- Claim C5 witness: resolving id 1 against an empty table is a no-op,
and double resolution of the same response against a table holding id 1
equals single resolution. -/
theorem C5_witness :
    handle_pending_response initState (respFrame r1W) = initState ∧
    handle_pending_response (handle_pending_response stW5 (respFrame r1W)) (respFrame r1W)
      = handle_pending_response stW5 (respFrame r1W) :=
  ⟨(C5_resolve_absent_idempotent initState (respFrame r1W) (by decide)).1,
   (C5_resolve_absent_idempotent initState (respFrame r1W) (by decide)).2 stW5⟩

theorem length_idsFrom : ∀ (n c : Nat), (idsFrom c n).length = n := by
  intro n
  induction n with
  | zero => intro c; rfl
  | succ n ih =>
    intro c
    rw [idsFrom, List.length_cons, ih]

theorem mem_idsFrom : ∀ (n c x : Nat), x ∈ idsFrom c n ↔ c ≤ x ∧ x < c + n := by
  intro n
  induction n with
  | zero =>
    intro c x
    simp [idsFrom]
  | succ n ih =>
    intro c x
    rw [idsFrom]
    simp only [List.mem_cons, ih]
    omega

theorem pairwise_idsFrom : ∀ (n c : Nat), List.Pairwise (· < ·) (idsFrom c n) := by
  intro n
  induction n with
  | zero => intro c; exact List.Pairwise.nil
  | succ n ih =>
    intro c
    rw [idsFrom]
    refine List.Pairwise.cons ?_ (ih (c + 1))
    intro y hy
    have := (mem_idsFrom n (c + 1) y).mp hy
    omega

theorem prepareRun_spec (cs : List (String × Params)) :
    ∀ st : WsState, st.counter + cs.length < USIZE →
      (prepareRun st cs).1
        = List.zipWith
            (fun k c => (k, Call.methodCall { id := k, method := c.1, params := c.2 }))
            (idsFrom st.counter cs.length) cs ∧
      (prepareRun st cs).2 = { st with counter := st.counter + cs.length } := by
  induction cs with
  | nil =>
    intro st _
    exact ⟨rfl, rfl⟩
  | cons c cs ih =>
    intro st h
    rw [List.length_cons] at h
    have hc1 : st.counter + 1 < USIZE := by omega
    have hpr2 : (prepare st c.1 c.2).2 = { st with counter := st.counter + 1 } := by
      show { st with counter := (st.counter + 1) % USIZE } = _
      rw [Nat.mod_eq_of_lt hc1]
    have ih2 := ih { st with counter := st.counter + 1 } (by show st.counter + 1 + cs.length < USIZE; omega)
    constructor
    · show (prepare st c.1 c.2).1 :: (prepareRun (prepare st c.1 c.2).2 cs).1 = _
      rw [List.length_cons, idsFrom, List.zipWith_cons_cons, hpr2, ih2.1]
      rfl
    · show (prepareRun (prepare st c.1 c.2).2 cs).2 = _
      rw [hpr2, ih2.2]
      show ({ st with counter := st.counter + 1 + cs.length } : WsState) = _
      have harith : st.counter + 1 + cs.length = st.counter + (c :: cs).length := by
        rw [List.length_cons]
        omega
      rw [harith]

theorem map_fst_zipWith :
    ∀ (ks : List Nat) (cs : List (String × Params)), ks.length = cs.length →
      (List.zipWith
          (fun k c => (k, Call.methodCall { id := k, method := c.1, params := c.2 }))
          ks cs).map Prod.fst = ks := by
  intro ks
  induction ks with
  | nil =>
    intro cs _
    simp
  | cons k ks ih =>
    intro cs h
    cases cs with
    | nil => simp at h
    | cons c cs =>
      simp only [List.zipWith_cons_cons, List.map_cons]
      rw [ih cs (by simpa using h)]

theorem prepareRun_ids (cs : List (String × Params)) (h : 1 + cs.length < USIZE) :
    (prepareRun initState cs).1.map Prod.fst = idsFrom 1 cs.length := by
  have hspec := prepareRun_spec cs initState h
  rw [hspec.1]
  exact map_fst_zipWith _ _ (length_idsFrom _ _)

/-- Claim C4: every call to prepare allocates a fresh id from the shared
counter; over any run of fewer than 2 ^ 64 - 1 allocations from a fresh
transport the allocated ids are pairwise distinct and strictly increasing,
each returned envelope is a MethodCall carrying exactly the allocated id
and the given method and params, and nothing but the counter changes (no
pending entry, no subscription, no outbound frame). -/
theorem C4_prepare_fresh_ids (cs : List (String × Params)) (h : 1 + cs.length < USIZE) :
    (prepareRun initState cs).1
      = List.zipWith
          (fun k c => (k, Call.methodCall { id := k, method := c.1, params := c.2 }))
          (idsFrom 1 cs.length) cs ∧
    ((prepareRun initState cs).1.map Prod.fst).Pairwise (· < ·) ∧
    ((prepareRun initState cs).1.map Prod.fst).Nodup ∧
    (prepareRun initState cs).2 = { initState with counter := 1 + cs.length } := by
  have hspec := prepareRun_spec cs initState h
  have hmap := prepareRun_ids cs h
  refine ⟨hspec.1, ?_, ?_, hspec.2⟩
  · rw [hmap]
    exact pairwise_idsFrom _ _
  · rw [hmap]
    exact (pairwise_idsFrom _ _).imp (fun hlt => Nat.ne_of_lt hlt)

/-- Claim C4 witness: two prepare calls from a fresh transport yield ids
1 and 2 with the given methods and params and touch only the counter. -/
theorem C4_witness :
    1 + csW.length < USIZE ∧
    ((prepareRun initState csW).1
        = List.zipWith
            (fun k c => (k, Call.methodCall { id := k, method := c.1, params := c.2 }))
            (idsFrom 1 csW.length) csW ∧
      ((prepareRun initState csW).1.map Prod.fst).Pairwise (· < ·) ∧
      ((prepareRun initState csW).1.map Prod.fst).Nodup ∧
      (prepareRun initState csW).2 = { initState with counter := 1 + csW.length }) :=
  ⟨by decide, C4_prepare_fresh_ids csW (by decide)⟩

/-- Claim C10: every id allocated by the transport is at least 1 (the
counter starts at 1 and increments), so the sentinel id 0 that
handle_pending_response substitutes for an undecodable response can never
match a pending entry whose keys are allocated ids: such a frame changes
nothing. -/
theorem C10_sentinel_zero_safe (cs : List (String × Params)) (h : 1 + cs.length < USIZE)
    (st : WsState) (hkeys : ∀ p ∈ st.pendings, 1 ≤ p.1)
    (f : TextFrame) (hf : f.resp = none) :
    (∀ x ∈ (prepareRun initState cs).1, 1 ≤ x.1) ∧
    respId f.resp = 0 ∧
    handle_pending_response st f = st := by
  refine ⟨?_, ?_, ?_⟩
  · intro x hx
    have hx1 : x.1 ∈ (prepareRun initState cs).1.map Prod.fst :=
      List.mem_map_of_mem Prod.fst hx
    rw [prepareRun_ids cs h] at hx1
    exact ((mem_idsFrom _ _ _).mp hx1).1
  · rw [hf]
    rfl
  · apply hpr_missing
    rw [hf]
    show lookupA st.pendings 0 = none
    rw [lookupA_eq_none_iff]
    intro h0
    rcases List.mem_map.mp h0 with ⟨p, hp, hp0⟩
    have := hkeys p hp
    omega

/-- Claim C10 witness: a frame failing Response decoding leaves a table
keyed by allocated ids untouched, and a concrete prepare run allocates
only ids at least 1. -/
theorem C10_witness :
    (1 + csW.length < USIZE ∧ (∀ p ∈ stW5.pendings, 1 ≤ p.1) ∧ junkFrame.resp = none) ∧
    ((∀ x ∈ (prepareRun initState csW).1, 1 ≤ x.1) ∧
      respId junkFrame.resp = 0 ∧
      handle_pending_response stW5 junkFrame = stW5) :=
  ⟨⟨by decide, by decide, rfl⟩,
   C10_sentinel_zero_safe csW (by decide) stW5 (by decide) junkFrame rfl⟩

theorem hpr_subs_const (st : WsState) (f : TextFrame) :
    (handle_pending_response st f).subs = st.subs := by
  cases hl : lookupA st.pendings (respId f.resp) with
  | none => rw [hpr_missing hl]
  | some s => rw [hpr_found hl]

theorem hpr_slog_const (st : WsState) (f : TextFrame) :
    (handle_pending_response st f).slog = st.slog := by
  cases hl : lookupA st.pendings (respId f.resp) with
  | none => rw [hpr_missing hl]
  | some s => rw [hpr_found hl]

theorem hsub_cases (st : WsState) (f : TextFrame) :
    handle_subscription st f = StepResult.panicked st ∨
    handle_subscription st f = StepResult.ok st ∨
    ∃ sub s v, lookupA st.subs sub = some s ∧
      handle_subscription st f = StepResult.ok { st with slog := st.slog ++ [(s, v)] } := by
  rcases f with ⟨note, resp⟩
  cases note with
  | none => exact Or.inr (Or.inl rfl)
  | some n =>
    rcases n with ⟨mth, params⟩
    cases params with
    | nonArray => exact Or.inr (Or.inl rfl)
    | array ps =>
      cases h0 : ps[0]? with
      | none =>
        refine Or.inr (Or.inl ?_)
        simp [handle_subscription, h0]
      | some v0 =>
        cases v0 with
        | str _ =>
          refine Or.inr (Or.inl ?_)
          simp [handle_subscription, h0]
        | null =>
          refine Or.inr (Or.inl ?_)
          simp [handle_subscription, h0]
        | num j =>
          cases h1 : ps[1]? with
          | none =>
            refine Or.inr (Or.inl ?_)
            simp [handle_subscription, h0, h1]
          | some resv =>
            cases hj : j.asU64 with
            | none =>
              refine Or.inl ?_
              simp [handle_subscription, h0, h1, hj]
            | some sub =>
              cases hl : lookupA st.subs sub with
              | none =>
                refine Or.inr (Or.inl ?_)
                simp [handle_subscription, h0, h1, hj, hl]
              | some s =>
                refine Or.inr (Or.inr ⟨sub, s, resv, hl, ?_⟩)
                simp [handle_subscription, h0, h1, hj, hl]

theorem hsub_noteFrame_found {st : WsState} {sub s : Nat} (mth : String)
    (v : Value) (rest : List Value) (hl : lookupA st.subs sub = some s) :
    handle_subscription st (noteFrame mth sub v rest)
      = StepResult.ok { st with slog := st.slog ++ [(s, v)] } := by
  have hred : handle_subscription st (noteFrame mth sub v rest)
      = (match lookupA st.subs sub with
         | some s2 => StepResult.ok { st with slog := st.slog ++ [(s2, v)] }
         | none => StepResult.ok st) := rfl
  rw [hred, hl]

theorem hsub_noteFrame_missing {st : WsState} {sub : Nat} (mth : String)
    (v : Value) (rest : List Value) (hl : lookupA st.subs sub = none) :
    handle_subscription st (noteFrame mth sub v rest) = StepResult.ok st := by
  have hred : handle_subscription st (noteFrame mth sub v rest)
      = (match lookupA st.subs sub with
         | some s2 => StepResult.ok { st with slog := st.slog ++ [(s2, v)] }
         | none => StepResult.ok st) := rfl
  rw [hred, hl]

theorem him_effects (st : WsState) (m : InMsg) (s : Nat)
    (h : s ∉ st.subs.map Prod.snd) :
    (stateOfStep (handle_incoming_msg st m)).subs = st.subs ∧
    deliveredTo s (stateOfStep (handle_incoming_msg st m)).slog = deliveredTo s st.slog := by
  cases m with
  | text f =>
    rcases hsub_cases st f with hc | hc | ⟨sub, s2, v, hl, hc⟩
    · rw [handle_incoming_msg, hc]
      exact ⟨rfl, rfl⟩
    · rw [handle_incoming_msg, hc]
      exact ⟨hpr_subs_const st f, by rw [stateOfStep, hpr_slog_const st f]⟩
    · rw [handle_incoming_msg, hc]
      have hs2 : s2 ∈ st.subs.map Prod.snd := List.mem_map_of_mem Prod.snd (lookupA_mem hl)
      have hne : s2 ≠ s := fun he => h (he ▸ hs2)
      constructor
      · rw [stateOfStep, hpr_subs_const]
      · rw [stateOfStep, hpr_slog_const]
        show deliveredTo s (st.slog ++ [(s2, v)]) = deliveredTo s st.slog
        rw [deliveredTo_append, deliveredTo_single_ne _ hne, List.append_nil]
  | binary b => exact ⟨rfl, rfl⟩
  | close cm =>
    cases hsc : st.senderClosed with
    | true =>
      simp only [handle_incoming_msg, hsc]
      exact ⟨rfl, rfl⟩
    | false =>
      simp only [handle_incoming_msg, hsc]
      exact ⟨rfl, rfl⟩
  | ping p =>
    cases hsc : st.senderClosed with
    | true =>
      simp only [handle_incoming_msg, hsc]
      exact ⟨rfl, rfl⟩
    | false =>
      simp only [handle_incoming_msg, hsc]
      exact ⟨rfl, rfl⟩
  | pong p => exact ⟨rfl, rfl⟩

theorem runIncoming_frozen (ms : List InMsg) :
    ∀ (st : WsState) (s : Nat), s ∉ st.subs.map Prod.snd →
      deliveredTo s (stateOfStep (runIncoming st ms)).slog = deliveredTo s st.slog := by
  induction ms with
  | nil =>
    intro st s _
    rfl
  | cons m ms ih =>
    intro st s h
    rw [runIncoming]
    have heff := him_effects st m s h
    cases hh : handle_incoming_msg st m with
    | panicked st1 =>
      rw [hh] at heff
      exact heff.2
    | ok st1 =>
      rw [hh] at heff
      simp only [stateOfStep] at heff
      rw [ih st1 s (by rw [heff.1]; exact h), heff.2]

/-- Claim C6: a second subscribe under an id already in use hands back a
fresh consumer sink, rebinds the id to it, every push message for that id
dispatched after the replacement is appended to the newest sink only, and
the superseded consumer sink receives no further values over any
subsequent run of the inbound loop. -/
theorem C6_subscribe_replaces (st st1 st2 : WsState) (id s1 s2 : Nat)
    (hw : subsWF st)
    (h1 : subscribe st id = (s1, st1))
    (h2 : subscribe st1 id = (s2, st2)) :
    s1 ≠ s2 ∧
    lookupA st2.subs id = some s2 ∧
    (∀ (mth : String) (v : Value) (rest : List Value),
      handle_subscription st2 (noteFrame mth id v rest)
        = StepResult.ok { st2 with slog := st2.slog ++ [(s2, v)] }) ∧
    (∀ ms : List InMsg,
      deliveredTo s1 (stateOfStep (runIncoming st2 ms)).slog = deliveredTo s1 st2.slog) := by
  have hs1 : st.nextSSink = s1 := congrArg Prod.fst h1
  have hst1 : ({ st with subs := insertA st.subs id st.nextSSink, nextSSink := st.nextSSink + 1 } : WsState) = st1 := congrArg Prod.snd h1
  have hs2 : st1.nextSSink = s2 := congrArg Prod.fst h2
  have hst2 : ({ st1 with subs := insertA st1.subs id st1.nextSSink, nextSSink := st1.nextSSink + 1 } : WsState) = st2 := congrArg Prod.snd h2
  have hn1 : st1.nextSSink = st.nextSSink + 1 := by rw [← hst1]
  have hne : s1 ≠ s2 := by
    rw [← hs1, ← hs2, hn1]
    omega
  have hsubs1 : st1.subs = insertA st.subs id s1 := by
    rw [← hst1, hs1]
  have hsubs2 : st2.subs = insertA st1.subs id s2 := by
    rw [← hst2, hs2]
  have hlk2 : lookupA st2.subs id = some s2 := by
    rw [hsubs2]
    exact lookupA_insertA_self _ _ _
  have hfresh : s1 ∉ st2.subs.map Prod.snd := by
    intro hmem
    rcases List.mem_map.mp hmem with ⟨q, hq, hqs⟩
    rw [hsubs2, hsubs1] at hq
    rcases List.mem_cons.mp hq with hq1 | hq2
    · apply hne
      rw [← hqs, hq1]
    · have hq3 : (q.1, q.2) ∈ eraseA (insertA st.subs id s1) id := hq2
      have hq4 := mem_eraseA.mp hq3
      have hq5 : (q.1, q.2) ∈ (id, s1) :: eraseA st.subs id := hq4.1
      rcases List.mem_cons.mp hq5 with hq6 | hq7
      · exact hq4.2 (congrArg Prod.fst hq6)
      · have hq8 := mem_eraseA.mp hq7
        have := hw.1 (q.1, q.2) hq8.1
        rw [hqs, hs1] at this
        exact Nat.lt_irrefl s1 this
  refine ⟨hne, hlk2, ?_, ?_⟩
  · intro mth v rest
    exact hsub_noteFrame_found mth v rest hlk2
  · intro ms
    exact runIncoming_frozen ms st2 s1 hfresh

/-- Claim C6 witness: subscribing twice under id 5 on a fresh transport
binds the id to the second sink, a dispatched value reaches only the
second sink, and a run of the inbound loop appends nothing to the first
sink. -/
theorem C6_witness :
    subsWF initState ∧
    ((0 : Nat) ≠ 1 ∧
      lookupA st2W6.subs 5 = some 1 ∧
      handle_subscription st2W6 (noteFrame "m" 5 Value.null [])
        = StepResult.ok { st2W6 with slog := st2W6.slog ++ [(1, Value.null)] } ∧
      deliveredTo 0 (stateOfStep
          (runIncoming st2W6 [InMsg.text (noteFrame "m" 5 Value.null [])])).slog
        = deliveredTo 0 st2W6.slog) := by
  have hmain := C6_subscribe_replaces initState st1W6 st2W6 5 0 1 (by decide) rfl rfl
  exact ⟨by decide, hmain.1, hmain.2.1, hmain.2.2.1 "m" Value.null [],
    hmain.2.2.2 [InMsg.text (noteFrame "m" 5 Value.null [])]⟩

/-- Claim C7: after unsubscribe removes the sink bound to an id, a push
message for that id is dropped (the registry no longer maps the id), and
the previously bound consumer sink receives no value from any subsequent
run of the inbound loop. -/
theorem C7_unsubscribe_drops (st : WsState) (id s : Nat)
    (hw : subsWF st) (hbound : lookupA st.subs id = some s) :
    lookupA (unsubscribe st id).subs id = none ∧
    (∀ (mth : String) (v : Value) (rest : List Value),
      handle_subscription (unsubscribe st id) (noteFrame mth id v rest)
        = StepResult.ok (unsubscribe st id)) ∧
    (∀ ms : List InMsg,
      deliveredTo s (stateOfStep (runIncoming (unsubscribe st id) ms)).slog
        = deliveredTo s (unsubscribe st id).slog) := by
  have hnone : lookupA (unsubscribe st id).subs id = none := by
    show lookupA (eraseA st.subs id) id = none
    exact lookupA_eraseA_self _ _
  have hfresh : s ∉ (unsubscribe st id).subs.map Prod.snd := by
    intro hmem
    rcases List.mem_map.mp hmem with ⟨q, hq, hqs⟩
    have hq2 : (q.1, q.2) ∈ eraseA st.subs id := hq
    have hq3 := mem_eraseA.mp hq2
    have hbmem : (id, s) ∈ st.subs := lookupA_mem hbound
    have : q.1 = id := snd_inj hw.2 (hqs ▸ hq3.1) hbmem
    exact hq3.2 this
  refine ⟨hnone, ?_, ?_⟩
  · intro mth v rest
    exact hsub_noteFrame_missing mth v rest hnone
  · intro ms
    exact runIncoming_frozen ms _ s hfresh

/-- Claim C7 witness: after subscribing id 3 and unsubscribing it, a push
message for id 3 is dropped and the old sink receives nothing across a
run of the inbound loop. -/
theorem C7_witness :
    (subsWF stW7 ∧ lookupA stW7.subs 3 = some 0) ∧
    (lookupA (unsubscribe stW7 3).subs 3 = none ∧
      handle_subscription (unsubscribe stW7 3) (noteFrame "m" 3 Value.null [])
        = StepResult.ok (unsubscribe stW7 3) ∧
      deliveredTo 0 (stateOfStep
          (runIncoming (unsubscribe stW7 3) [InMsg.text (noteFrame "m" 3 Value.null [])])).slog
        = deliveredTo 0 (unsubscribe stW7 3).slog) := by
  have hmain := C7_unsubscribe_drops stW7 3 0 (by decide) (by decide)
  exact ⟨⟨by decide, by decide⟩, hmain.1, hmain.2.1 "m" Value.null [],
    hmain.2.2 [InMsg.text (noteFrame "m" 3 Value.null [])]⟩

/-- Claim C8: while the writer channel is open, handling an inbound ping
enqueues exactly one pong carrying the same payload on the outbound lane
and leaves the pending table and the subscription table unchanged. -/
theorem C8_ping_pong (st : WsState) (p : List Nat) (hopen : st.senderClosed = false) :
    handle_incoming_msg st (InMsg.ping p)
      = StepResult.ok { st with outbound := st.outbound ++ [OutMsg.pong p] } ∧
    (stateOfStep (handle_incoming_msg st (InMsg.ping p))).pendings = st.pendings ∧
    (stateOfStep (handle_incoming_msg st (InMsg.ping p))).subs = st.subs := by
  have h1 : handle_incoming_msg st (InMsg.ping p)
      = StepResult.ok { st with outbound := st.outbound ++ [OutMsg.pong p] } := by
    simp [handle_incoming_msg, hopen]
  rw [h1]
  exact ⟨rfl, rfl, rfl⟩

/-- Claim C8 witness: a concrete ping on a fresh transport yields exactly
one matching pong and unchanged tables. -/
theorem C8_witness :
    initState.senderClosed = false ∧
    (handle_incoming_msg initState (InMsg.ping [1, 2])
        = StepResult.ok { initState with outbound := initState.outbound ++ [OutMsg.pong [1, 2]] } ∧
      (stateOfStep (handle_incoming_msg initState (InMsg.ping [1, 2]))).pendings
        = initState.pendings ∧
      (stateOfStep (handle_incoming_msg initState (InMsg.ping [1, 2]))).subs
        = initState.subs) :=
  ⟨rfl, C8_ping_pong initState [1, 2] rfl⟩

/-- Claim C3 (code bug): an inbound text frame that decodes as a push
message whose params hold a Number that is not a valid u64 makes the
dispatch panic at the as_u64().unwrap() call instead of being logged and
dropped: evaluated at the concrete bad frame, handling panics, which kills
the inbound loop, contradicting the logged-and-dropped behavior the
surrounding branches implement for the other malformed shapes. -/
theorem C3_bad_frame_panics :
    handle_incoming_msg initState (InMsg.text badFrame) = StepResult.panicked initState := by
  rfl

theorem send_request_closed (st : WsState) (id : Nat) (req : Call)
    (hterm : st.senderClosed = true) :
    send_request st id req = SendStep.panicked (pendInsertState st id) := by
  simp [send_request, hterm]

theorem send_request_open (st : WsState) (id : Nat) (req : Call)
    (hopen : st.senderClosed = false) :
    send_request st id req
      = SendStep.enqueued st.nextPSink
          { pendInsertState st id with outbound := st.outbound ++ [OutMsg.text req] } := by
  simp [send_request, hopen]

theorem sos_fields (st : WsState) (id : Nat) (req : Call) :
    (stateOfSend (send_request st id req)).pendings = (pendInsertState st id).pendings ∧
    (stateOfSend (send_request st id req)).droppedP = (pendInsertState st id).droppedP ∧
    (stateOfSend (send_request st id req)).plog = (pendInsertState st id).plog := by
  cases hsc : st.senderClosed with
  | true =>
    rw [send_request_closed st id req hsc]
    exact ⟨rfl, rfl, rfl⟩
  | false =>
    rw [send_request_open st id req hsc]
    exact ⟨rfl, rfl, rfl⟩

theorem pendInsertState_dropped {st : WsState} {id sOld : Nat}
    (hold : lookupA st.pendings id = some sOld) :
    (pendInsertState st id).droppedP = sOld :: st.droppedP := by
  simp [pendInsertState, hold]

/-- Claim C2 counterexample: after driver termination a subsequent
send_request panics at the expect on the closed writer channel (after
registering its pending entry), and the await of a send that was
outstanding at termination hangs forever; neither surfaces a failed
transport-closed Result. -/
theorem C2_counterexample :
    isPanicked (send_request (driverTerminated initState) 2 callX) = true ∧
    lookupA (stateOfSend (send_request (driverTerminated initState) 2 callX)).pendings 2
      = some 0 ∧
    await_unwrap (driverTerminated (stateOfSend (send_request initState 1 callX))) 0
      = AwaitOutcome.hung := by
  decide

/-- Claim C2 amended: if the driver has terminated, a send issued
afterwards registers its pending entry and then panics at the expect when
enqueuing on the closed outbound lane (no failed Result is returned, and
nothing lands on the outbound lane), while driver termination leaves every
pending entry in place, so an outstanding await that has received nothing
and whose sender is alive hangs instead of failing with a
transport-closed Result. -/
theorem C2_amended_termination (st : WsState) (id : Nat) (req : Call)
    (hterm : st.senderClosed = true) :
    send_request st id req = SendStep.panicked (pendInsertState st id) ∧
    lookupA (pendInsertState st id).pendings id = some st.nextPSink ∧
    (pendInsertState st id).outbound = st.outbound ∧
    (driverTerminated st).pendings = st.pendings ∧
    (∀ s : Nat, deliveredTo s st.plog = [] → s ∉ st.droppedP →
      await_unwrap (driverTerminated st) s = AwaitOutcome.hung) := by
  refine ⟨send_request_closed st id req hterm, lookupA_insertA_self _ _ _, rfl, rfl, ?_⟩
  intro s hnp hnd
  unfold await_unwrap
  have hfil : (driverTerminated st).plog.filter (fun d => d.1 == s) = [] := hnp
  rw [hfil]
  have hnd2 : s ∉ (driverTerminated st).droppedP := hnd
  rw [if_neg hnd2]

/-- Claim C2 witness: the amended behavior at a freshly terminated
transport with a post-termination send of id 2. -/
theorem C2_witness :
    (driverTerminated initState).senderClosed = true ∧
    (send_request (driverTerminated initState) 2 callX
        = SendStep.panicked (pendInsertState (driverTerminated initState) 2) ∧
      lookupA (pendInsertState (driverTerminated initState) 2).pendings 2
        = some (driverTerminated initState).nextPSink ∧
      (pendInsertState (driverTerminated initState) 2).outbound
        = (driverTerminated initState).outbound ∧
      (driverTerminated (driverTerminated initState)).pendings
        = (driverTerminated initState).pendings ∧
      await_unwrap (driverTerminated (driverTerminated initState)) 0 = AwaitOutcome.hung) := by
  have hmain := C2_amended_termination (driverTerminated initState) 2 callX rfl
  exact ⟨rfl, hmain.1, hmain.2.1, hmain.2.2.1, hmain.2.2.2.1,
    hmain.2.2.2.2 0 rfl (by decide)⟩

/-- Claim C9 counterexample: registering id 7 twice supersedes sink 0 with
sink 1, and the superseded caller awaiting sink 0 observes a panic (the
dropped oneshot sender wakes the receiver with a cancellation that the
unwrap in send_request turns into a panic), not silence. -/
theorem C9_counterexample :
    send_request initState 7 callX = SendStep.enqueued 0 stC9a ∧
    send_request stC9a 7 callX = SendStep.enqueued 1 stC9b ∧
    lookupA stC9b.pendings 7 = some 1 ∧
    await_unwrap stC9b 0 = AwaitOutcome.panicked := by
  decide

/-- Claim C9 amended: registering a completion sink under an id that
already has an entry overwrites the entry with the fresh sink, and the
superseded sink is never completed with a response by any later run of
the dispatch loop; but the overwrite drops the superseded sender, so the
superseded caller's await is woken with a cancellation that the unwrap in
send_request turns into a panic: the superseded caller observes a crash,
not silence. -/
theorem C9_amended_overwrite (st : WsState) (id sOld : Nat) (req : Call)
    (hw : pendWF st) (hold : lookupA st.pendings id = some sOld)
    (hclean : deliveredTo sOld st.plog = []) :
    lookupA (stateOfSend (send_request st id req)).pendings id = some st.nextPSink ∧
    sOld ∈ (stateOfSend (send_request st id req)).droppedP ∧
    (∀ rs : List Response,
      deliveredTo sOld (runResponses (stateOfSend (send_request st id req)) rs).plog = [] ∧
      await_unwrap (runResponses (stateOfSend (send_request st id req)) rs) sOld
        = AwaitOutcome.panicked) := by
  have hfields := sos_fields st id req
  have holdmem : (id, sOld) ∈ st.pendings := lookupA_mem hold
  have hlt : sOld < st.nextPSink := hw.1 (id, sOld) holdmem
  have hfresh : sOld ∉ (stateOfSend (send_request st id req)).pendings.map Prod.snd := by
    rw [hfields.1]
    intro hmem
    rcases List.mem_map.mp hmem with ⟨q, hq, hqs⟩
    have hq1 : (q.1, q.2) ∈ (id, st.nextPSink) :: eraseA st.pendings id := hq
    rcases List.mem_cons.mp hq1 with hq2 | hq3
    · have : sOld = st.nextPSink := by
        rw [← hqs]
        exact congrArg Prod.snd hq2
      omega
    · have hq4 := mem_eraseA.mp hq3
      have : q.1 = id := snd_inj hw.2 (hqs ▸ hq4.1) holdmem
      exact hq4.2 this
  have hdrop : sOld ∈ (stateOfSend (send_request st id req)).droppedP := by
    rw [hfields.2.1, pendInsertState_dropped hold]
    exact List.mem_cons_self _ _
  refine ⟨?_, hdrop, ?_⟩
  · rw [hfields.1]
    exact lookupA_insertA_self _ _ _
  · intro rs
    have hplog : deliveredTo sOld (stateOfSend (send_request st id req)).plog = [] := by
      rw [hfields.2.2]
      exact hclean
    have hrun : deliveredTo sOld
        (runResponses (stateOfSend (send_request st id req)) rs).plog = [] := by
      rw [runResponses_frozen rs _ sOld hfresh]
      exact hplog
    refine ⟨hrun, ?_⟩
    unfold await_unwrap
    have hfil : (runResponses (stateOfSend (send_request st id req)) rs).plog.filter
        (fun d => d.1 == sOld) = [] := hrun
    rw [hfil]
    have hdrop2 : sOld ∈ (runResponses (stateOfSend (send_request st id req)) rs).droppedP := by
      rw [runResponses_droppedP]
      exact hdrop
    rw [if_pos hdrop2]

/-- Claim C9 witness: the amended behavior at the concrete
double-registration of id 7, with a late id-7 response dispatched
afterwards; nothing reaches the superseded sink 0 and its await
panics. -/
theorem C9_witness :
    (pendWF stC9a ∧ lookupA stC9a.pendings 7 = some 0 ∧ deliveredTo 0 stC9a.plog = []) ∧
    (lookupA (stateOfSend (send_request stC9a 7 callX)).pendings 7 = some stC9a.nextPSink ∧
      0 ∈ (stateOfSend (send_request stC9a 7 callX)).droppedP ∧
      (deliveredTo 0 (runResponses (stateOfSend (send_request stC9a 7 callX)) [r7W]).plog = [] ∧
        await_unwrap (runResponses (stateOfSend (send_request stC9a 7 callX)) [r7W]) 0
          = AwaitOutcome.panicked)) := by
  have hmain := C9_amended_overwrite stC9a 7 0 callX (by decide) (by decide) rfl
  exact ⟨⟨by decide, by decide, rfl⟩, hmain.1, hmain.2.1, hmain.2.2 [r7W]⟩

end Plum
